/-
Verification of the CO safety controller (`co-system`): a shallow embedding of
the ring buffer, CRC8/protocol codec, FSM engine, sensor loop and cloud sync
agent, with theorems checking the specification's testable properties.

Machine integers are modelled as `Nat` with explicit `% 2^w` where overflow
matters; C `float` values are modelled as `ℚ` (exact at the dyadic inputs the
proofs evaluate); the FreeRTOS mutexes/queues are modelled out: the theorems
cover the successful-acquisition paths, as the claims state.
-/

import Mathlib

set_option autoImplicit false

namespace COSystem

/-! Configuration constants, from `config/config_template.h` and
`src/communication/ring_buffer.h` / `protocol.h`. -/

def RING_BUFFER_SIZE : Nat := 100
def INIT_DURATION_MS : Nat := 3000
def DOOR_OPEN_DURATION_MS : Nat := 5000
def CO_THRESHOLD_SENSOR_PPM : ℚ := 100
def PROTOCOL_START_MARKER : Nat := 0xAA
def PROTOCOL_END_MARKER : Nat := 0x55
def MSG_TYPE_TELEMETRY : Nat := 0x01
def MSG_TYPE_EVENT : Nat := 0x02

/-- The `Telemetry_t` struct of `src/communication/ring_buffer.h`:
`uint32_t timestamp; float co_ppm; bool alarm_active; bool door_open;
uint8_t state; char event[16];`. -/
structure Telemetry where
  timestamp : Nat
  co_ppm : ℚ
  alarm_active : Bool
  door_open : Bool
  state : Nat
  event : String
deriving Repr, DecidableEq, Inhabited

/-! The ring buffer of `src/communication/ring_buffer.c`: a static array
`buffer[RING_BUFFER_SIZE]` with `head` (next write), `tail` (next read) and
`count`, all mutated under the buffer mutex.  The state is the contents of
those statics; the operations below are the bodies of the C functions on the
successful-lock path. -/

structure RingBuffer where
  buf : Nat → Telemetry
  head : Nat
  tail : Nat
  count : Nat

/-- Body of `ring_buffer_init`: head, tail, count reset to zero (the static
array itself is zero-initialized C storage, modelled as `default`). -/
def ring_buffer_init : RingBuffer :=
  { buf := fun _ => default, head := 0, tail := 0, count := 0 }

/-- Body of `ring_buffer_push` (mutex acquired, `item` non-null): when full,
advance `tail` and decrement `count` (evicting the oldest item), then write
`item` at `head`, advance `head` and increment `count`. -/
def ring_buffer_push (s : RingBuffer) (item : Telemetry) : RingBuffer :=
  let s1 :=
    if s.count = RING_BUFFER_SIZE then
      { s with tail := (s.tail + 1) % RING_BUFFER_SIZE, count := s.count - 1 }
    else s
  { s1 with
    buf := fun j => if j = s1.head then item else s1.buf j
    head := (s1.head + 1) % RING_BUFFER_SIZE
    count := s1.count + 1 }

/-- Body of `ring_buffer_pop` (mutex acquired, `item` non-null): `none` models
the `return false` on an empty buffer; otherwise the oldest item (at `tail`)
is returned and `tail`/`count` advance. -/
def ring_buffer_pop (s : RingBuffer) : Option (Telemetry × RingBuffer) :=
  if s.count = 0 then none
  else some (s.buf s.tail,
    { s with tail := (s.tail + 1) % RING_BUFFER_SIZE, count := s.count - 1 })

/-- Body of `ring_buffer_count` (mutex acquired). -/
def ring_buffer_count (s : RingBuffer) : Nat := s.count

/-- The logical FIFO contents of the buffer: `count` items starting at `tail`. -/
def RingBuffer.contents (s : RingBuffer) : List Telemetry :=
  (List.range s.count).map fun i => s.buf ((s.tail + i) % RING_BUFFER_SIZE)

/-- Abstraction relation: the buffer state stores exactly the list `l`,
oldest first, together with the structural invariants of the C code. -/
def RingBuffer.realizes (s : RingBuffer) (l : List Telemetry) : Prop :=
  s.count = l.length ∧ s.count ≤ RING_BUFFER_SIZE ∧ s.tail < RING_BUFFER_SIZE ∧
  s.head = (s.tail + s.count) % RING_BUFFER_SIZE ∧
  ∀ i : Nat, (h : i < l.length) →
    s.buf ((s.tail + i) % RING_BUFFER_SIZE) = l.get ⟨i, h⟩

theorem realizes_contents {s : RingBuffer} {l : List Telemetry}
    (hs : s.realizes l) : s.contents = l := by
  obtain ⟨hc, _, _, _, hbuf⟩ := hs
  apply List.ext_get
  · simp [RingBuffer.contents, hc]
  · intro i h1 h2
    simp only [RingBuffer.contents, List.get_eq_getElem, List.getElem_map,
      List.getElem_range]
    have hi : i < l.length := by simpa [RingBuffer.contents, hc] using h1
    simpa using hbuf i hi

theorem ring_buffer_init_realizes : ring_buffer_init.realizes [] := by
  refine ⟨rfl, by simp [ring_buffer_init], by simp [ring_buffer_init, RING_BUFFER_SIZE],
    by simp [ring_buffer_init], ?_⟩
  intro i h
  simp at h

/-- The list-level effect of one push: append, evicting the oldest when full. -/
def evictStep (l : List Telemetry) (x : Telemetry) : List Telemetry :=
  if l.length < RING_BUFFER_SIZE then l ++ [x] else l.drop 1 ++ [x]

theorem ring_buffer_push_full {s : RingBuffer} (x : Telemetry)
    (hcount : s.count = RING_BUFFER_SIZE) :
    ring_buffer_push s x =
      { buf := fun j => if j = s.head then x else s.buf j
        head := (s.head + 1) % RING_BUFFER_SIZE
        tail := (s.tail + 1) % RING_BUFFER_SIZE
        count := RING_BUFFER_SIZE } := by
  simp [ring_buffer_push, hcount, RING_BUFFER_SIZE]

theorem ring_buffer_push_not_full {s : RingBuffer} (x : Telemetry)
    (hcount : s.count ≠ RING_BUFFER_SIZE) :
    ring_buffer_push s x =
      { buf := fun j => if j = s.head then x else s.buf j
        head := (s.head + 1) % RING_BUFFER_SIZE
        tail := s.tail
        count := s.count + 1 } := by
  simp [ring_buffer_push, hcount]

theorem push_realizes {s : RingBuffer} {l : List Telemetry}
    (hs : s.realizes l) (x : Telemetry) :
    (ring_buffer_push s x).realizes (evictStep l x) := by
  obtain ⟨hc, hle, ht, hh, hbuf⟩ := hs
  have hN : RING_BUFFER_SIZE = 100 := rfl
  simp only [hN] at ht hh hle hbuf
  by_cases hfull : l.length = RING_BUFFER_SIZE
  · -- full: evict the oldest, then write at head
    have hcount : s.count = RING_BUFFER_SIZE := by rw [hc, hfull]
    have hl100 : l.length = 100 := by rw [hfull, hN]
    rw [ring_buffer_push_full x hcount]
    have hstep : evictStep l x = l.drop 1 ++ [x] := by
      simp [evictStep, hfull]
    rw [hstep]
    have hlen : (l.drop 1).length = 99 := by simp [hl100]
    simp only [hN] at hcount
    refine ⟨?_, ?_, ?_, ?_, ?_⟩
    · simp only [hN, List.length_append, hlen, List.length_singleton]
    · exact le_refl _
    · simp only [hN]; omega
    · simp only [hN, List.length_append, hlen, List.length_singleton, hh, hcount]
      omega
    · intro i hi
      simp only [List.length_append, hlen, List.length_singleton] at hi
      simp only [hN, List.get_eq_getElem]
      rcases Nat.lt_or_ge i 99 with hlt | hge
      · -- untouched slot: index differs from the write position `head`
        have hne : ((s.tail + 1) % 100 + i) % 100 ≠ s.head := by
          rw [hh, hcount]; omega
        rw [if_neg hne]
        have hix : ((s.tail + 1) % 100 + i) % 100 = (s.tail + (i + 1)) % 100 := by
          omega
        rw [hix]
        have h1 : i + 1 < l.length := by omega
        rw [hbuf (i + 1) h1]
        have hdrop : i < (l.drop 1).length := by omega
        rw [List.get_eq_getElem, List.getElem_append_left hdrop]
        simp
      · -- the written slot: holds the new item `x`
        have hi99 : i = 99 := by omega
        subst hi99
        have heq : ((s.tail + 1) % 100 + 99) % 100 = s.head := by
          rw [hh, hcount]; omega
        rw [if_pos heq]
        rw [List.getElem_append_right (by omega)]
        simp [hlen]
  · -- not full: plain append
    have hcount : s.count ≠ RING_BUFFER_SIZE := by rw [hc]; exact hfull
    have hlt : l.length < 100 := by
      rw [hN] at hfull
      rw [← hc]
      rw [← hc] at hfull
      omega
    rw [ring_buffer_push_not_full x hcount]
    have hstep : evictStep l x = l ++ [x] := by
      simp only [evictStep, hN]
      rw [if_pos hlt]
    rw [hstep]
    refine ⟨?_, ?_, ?_, ?_, ?_⟩
    · simp [hc]
    · simp only [hN, List.length_append, List.length_singleton]
      rw [← hc] at hlt
      omega
    · simp only [hN]; exact ht
    · simp only [hN, List.length_append, List.length_singleton, hh, hc]
      omega
    · intro i hi
      simp only [List.length_append, List.length_singleton] at hi
      simp only [hN, List.get_eq_getElem]
      rcases Nat.lt_or_ge i l.length with hil | hig
      · have hne : (s.tail + i) % 100 ≠ s.head := by
          rw [hh, hc]; omega
        rw [if_neg hne]
        rw [hbuf i hil]
        rw [List.get_eq_getElem, List.getElem_append_left hil]
      · have hieq : i = l.length := by omega
        subst hieq
        have heq : (s.tail + l.length) % 100 = s.head := by rw [hh, hc]
        rw [if_pos heq]
        rw [List.getElem_append_right (by omega)]
        simp

theorem pop_realizes_cons {s : RingBuffer} {x : Telemetry} {l : List Telemetry}
    (hs : s.realizes (x :: l)) :
    ∃ s1, ring_buffer_pop s = some (x, s1) ∧ s1.realizes l := by
  obtain ⟨hc, hle, ht, hh, hbuf⟩ := hs
  have hN : RING_BUFFER_SIZE = 100 := rfl
  simp only [hN] at ht hh hle hbuf
  have hc0 : s.count ≠ 0 := by simp [hc]
  refine ⟨{ s with tail := (s.tail + 1) % RING_BUFFER_SIZE, count := s.count - 1 },
    ?_, ?_⟩
  · simp only [ring_buffer_pop, if_neg hc0]
    have h0 : (0 : Nat) < (x :: l).length := by simp
    have h := hbuf 0 h0
    have htl : (s.tail + 0) % 100 = s.tail := by omega
    rw [htl] at h
    rw [h]
    rfl
  · refine ⟨by simp [hc], by simp only [hN]; omega, ?_, ?_, ?_⟩
    · simp only [hN]; omega
    · simp only [hN, hc, List.length_cons]
      rw [hc] at hh
      simp only [List.length_cons] at hh
      rw [hh]
      omega
    · intro i hi
      simp only [hN]
      have hix : ((s.tail + 1) % 100 + i) % 100 = (s.tail + (i + 1)) % 100 := by
        omega
      rw [hix]
      have h1 : i + 1 < (x :: l).length := by simp; omega
      rw [hbuf (i + 1) h1]
      simp

theorem pop_realizes_nil {s : RingBuffer} (hs : s.realizes []) :
    ring_buffer_pop s = none := by
  obtain ⟨hc, _, _, _, _⟩ := hs
  simp [ring_buffer_pop, hc]

/-- A sequence of pushes, oldest first. -/
def pushAll (s : RingBuffer) (xs : List Telemetry) : RingBuffer :=
  xs.foldl ring_buffer_push s

theorem pushAll_realizes {s : RingBuffer} {l : List Telemetry}
    (hs : s.realizes l) (xs : List Telemetry) :
    (pushAll s xs).realizes (xs.foldl evictStep l) := by
  induction xs generalizing s l with
  | nil => exact hs
  | cons x xs ih =>
    simpa [pushAll, List.foldl_cons] using ih (push_realizes hs x)

theorem foldl_evictStep (xs : List Telemetry) :
    ∀ l : List Telemetry, l.length ≤ RING_BUFFER_SIZE →
      xs.foldl evictStep l = (l ++ xs).drop ((l ++ xs).length - RING_BUFFER_SIZE) := by
  have hN : RING_BUFFER_SIZE = 100 := rfl
  induction xs with
  | nil =>
    intro l h
    rw [hN] at h ⊢
    have : l.length - 100 = 0 := by omega
    simp [this]
  | cons x xs ih =>
    intro l h
    simp only [List.foldl_cons]
    by_cases hlt : l.length < RING_BUFFER_SIZE
    · have hstep : evictStep l x = l ++ [x] := by simp [evictStep, hlt]
      rw [hstep, ih (l ++ [x]) (by rw [hN] at hlt ⊢; simp; omega)]
      simp [List.append_assoc]
    · have hfull : l.length = RING_BUFFER_SIZE := by omega
      have hstep : evictStep l x = l.drop 1 ++ [x] := by
        simp [evictStep, hfull]
      rw [hstep, ih (l.drop 1 ++ [x]) (by rw [hN] at hfull ⊢; simp [hfull])]
      have hsplit : (l.drop 1 ++ [x]) ++ xs = (l ++ ([x] ++ xs)).drop 1 := by
        rw [List.drop_append_of_le_length (by rw [hN] at hfull; omega)]
        simp [List.append_assoc]
      rw [hsplit, List.drop_drop]
      congr 1
      rw [hN] at hfull ⊢
      simp [hfull]
      omega



/-- The `while (ring_buffer_pop(&item))` loop of `flush_ring_buffer`, with
explicit fuel (the loop pops at most `count` items). -/
def ring_buffer_drain : Nat → RingBuffer → List Telemetry × RingBuffer
  | 0, s => ([], s)
  | n + 1, s =>
    match ring_buffer_pop s with
    | none => ([], s)
    | some (y, s1) =>
      let r := ring_buffer_drain n s1
      (y :: r.1, r.2)

theorem drain_realizes {l : List Telemetry} {s : RingBuffer} (hs : s.realizes l) :
    (ring_buffer_drain l.length s).1 = l ∧
    (ring_buffer_drain l.length s).2.realizes [] := by
  induction l generalizing s with
  | nil => exact ⟨rfl, hs⟩
  | cons x l ih =>
    obtain ⟨s1, hpop, hr⟩ := pop_realizes_cons hs
    have h := ih hr
    simp only [List.length_cons, ring_buffer_drain, hpop]
    exact ⟨by rw [h.1], h.2⟩

theorem pushAll_init_realizes (xs : List Telemetry) :
    (pushAll ring_buffer_init xs).realizes
      (xs.drop (xs.length - RING_BUFFER_SIZE)) := by
  have h := pushAll_realizes ring_buffer_init_realizes xs
  rwa [foldl_evictStep xs [] (by simp), List.nil_append] at h

/-- A concrete telemetry record, used by the closed witness statements. -/
def sampleRecord (n : Nat) : Telemetry :=
  { timestamp := n, co_ppm := n, alarm_active := false, door_open := false,
    state := 0, event := "READING" }

def sampleRecords (n : Nat) : List Telemetry :=
  (List.range n).map sampleRecord

/-- C1: starting from the initialized empty buffer, a sequence of n successful
pushes retains exactly the last min(n, 100) items in push order with
`count = min n 100`; a push onto a full buffer evicts only the single oldest
item; and popping returns exactly the retained items oldest-first, with `pop`
returning false (`none`) once the buffer is empty. -/
theorem ring_buffer_fifo_spec (xs : List Telemetry) :
    (pushAll ring_buffer_init xs).count = min xs.length RING_BUFFER_SIZE ∧
    (pushAll ring_buffer_init xs).contents =
      xs.drop (xs.length - RING_BUFFER_SIZE) ∧
    (∀ y : Telemetry, RING_BUFFER_SIZE ≤ xs.length →
      (ring_buffer_push (pushAll ring_buffer_init xs) y).contents =
        (pushAll ring_buffer_init xs).contents.drop 1 ++ [y]) ∧
    (ring_buffer_drain (pushAll ring_buffer_init xs).count
        (pushAll ring_buffer_init xs)).1 =
      (pushAll ring_buffer_init xs).contents ∧
    ring_buffer_pop (ring_buffer_drain (pushAll ring_buffer_init xs).count
        (pushAll ring_buffer_init xs)).2 = none := by
  have hN : RING_BUFFER_SIZE = 100 := rfl
  have hr := pushAll_init_realizes xs
  have hcontents := realizes_contents hr
  have hlen : (xs.drop (xs.length - RING_BUFFER_SIZE)).length =
      min xs.length RING_BUFFER_SIZE := by
    simp only [List.length_drop, hN]
    omega
  have hcount : (pushAll ring_buffer_init xs).count = min xs.length RING_BUFFER_SIZE := by
    rw [hr.1, hlen]
  refine ⟨hcount, hcontents, ?_, ?_, ?_⟩
  · intro y hfull
    have hfit : (xs.drop (xs.length - RING_BUFFER_SIZE)).length = RING_BUFFER_SIZE := by
      simp only [List.length_drop, hN] at *
      omega
    have hp := push_realizes hr y
    have hev : evictStep (xs.drop (xs.length - RING_BUFFER_SIZE)) y =
        (xs.drop (xs.length - RING_BUFFER_SIZE)).drop 1 ++ [y] := by
      simp [evictStep, hfit]
    rw [hev] at hp
    rw [realizes_contents hp, hcontents]
  · have hd := drain_realizes hr
    rw [hr.1, hcontents]
    exact hd.1
  · have hd := drain_realizes hr
    rw [hr.1]
    exact pop_realizes_nil hd.2

/-- C1 witness: the theorem applied to 103 concrete records; the retained
contents are records 3..102 and one further push on the full buffer evicts
only record 3. -/
theorem ring_buffer_fifo_spec_witness :
    RING_BUFFER_SIZE ≤ (sampleRecords 103).length ∧
    (pushAll ring_buffer_init (sampleRecords 103)).count =
      min (sampleRecords 103).length RING_BUFFER_SIZE ∧
    (ring_buffer_push (pushAll ring_buffer_init (sampleRecords 103))
        (sampleRecord 103)).contents =
      (pushAll ring_buffer_init (sampleRecords 103)).contents.drop 1 ++
        [sampleRecord 103] := by
  have h := ring_buffer_fifo_spec (sampleRecords 103)
  have hle : RING_BUFFER_SIZE ≤ (sampleRecords 103).length := by
    simp [sampleRecords, RING_BUFFER_SIZE]
  exact ⟨hle, h.1, h.2.2.1 (sampleRecord 103) hle⟩



/-! CRC8 of `src/communication/crc8.c`: polynomial 0x07, initial value 0x00,
MSB-first, no reflection, no final XOR.  `crc` is a `uint8_t`: the C shift and
xor promote to `int` and truncate back to 8 bits on assignment, modelled by
the explicit `% 256`. -/

/-- One iteration of the inner bit loop of `crc8_calculate`. -/
def crc8_step (crc : Nat) : Nat :=
  if crc &&& 0x80 ≠ 0 then ((crc <<< 1) ^^^ 0x07) % 256
  else (crc <<< 1) % 256

/-- The eight bit iterations. -/
def crc8_bits : Nat → Nat → Nat
  | 0, crc => crc
  | j + 1, crc => crc8_bits j (crc8_step crc)

/-- One iteration of the outer byte loop: `crc ^= data[i]` then eight bit
rounds. -/
def crc8_update (crc b : Nat) : Nat := crc8_bits 8 (crc ^^^ b)

/-- The function `crc8_calculate(data, length)`, over the byte list. -/
def crc8_calculate (data : List Nat) : Nat := data.foldl crc8_update 0

/-- Explicit inverse of `crc8_step` on bytes: `crc8_step` is multiplication by
x in GF(2)[x]/(x^8+x^2+x+1), hence invertible. -/
def crc8_unstep (c : Nat) : Nat :=
  if c % 2 = 1 then (c ^^^ 0x07) / 2 + 128 else c / 2

set_option maxRecDepth 4000 in
theorem crc8_step_lt : ∀ c : Nat, c < 256 → crc8_step c < 256 := by decide

set_option maxRecDepth 4000 in
theorem crc8_unstep_step : ∀ c : Nat, c < 256 → crc8_unstep (crc8_step c) = c := by
  decide

theorem crc8_step_inj {a b : Nat} (ha : a < 256) (hb : b < 256)
    (h : crc8_step a = crc8_step b) : a = b := by
  have h2 := congrArg crc8_unstep h
  rwa [crc8_unstep_step a ha, crc8_unstep_step b hb] at h2

theorem crc8_bits_lt : ∀ (n c : Nat), c < 256 → crc8_bits n c < 256 := by
  intro n
  induction n with
  | zero => intro c hc; exact hc
  | succ n ih => intro c hc; exact ih _ (crc8_step_lt c hc)

theorem crc8_bits_inj : ∀ (n : Nat) {a b : Nat}, a < 256 → b < 256 →
    crc8_bits n a = crc8_bits n b → a = b := by
  intro n
  induction n with
  | zero => intro a b _ _ h; exact h
  | succ n ih =>
    intro a b ha hb h
    exact crc8_step_inj ha hb
      (ih (crc8_step_lt a ha) (crc8_step_lt b hb) h)

theorem xor_byte_lt {a b : Nat} (ha : a < 256) (hb : b < 256) : a ^^^ b < 256 := by
  have h8 : (256 : Nat) = 2 ^ 8 := by norm_num
  rw [h8] at ha hb ⊢
  exact Nat.xor_lt_two_pow ha hb

theorem xor_cancel_right {a b x : Nat} (h : a ^^^ x = b ^^^ x) : a = b := by
  have h2 := congrArg (fun z => z ^^^ x) h
  simpa [Nat.xor_assoc] using h2

theorem xor_cancel_left {c u v : Nat} (h : c ^^^ u = c ^^^ v) : u = v := by
  have h2 := congrArg (fun z => c ^^^ z) h
  simpa [← Nat.xor_assoc] using h2

theorem crc8_update_lt {c b : Nat} (hc : c < 256) (hb : b < 256) :
    crc8_update c b < 256 :=
  crc8_bits_lt 8 _ (xor_byte_lt hc hb)

theorem crc8_update_inj {a b x : Nat} (ha : a < 256) (hb : b < 256) (hx : x < 256)
    (h : crc8_update a x = crc8_update b x) : a = b :=
  xor_cancel_right (crc8_bits_inj 8 (xor_byte_lt ha hx) (xor_byte_lt hb hx) h)

theorem crc8_foldl_inj : ∀ (l : List Nat), (∀ x ∈ l, x < 256) →
    ∀ {a b : Nat}, a < 256 → b < 256 →
    List.foldl crc8_update a l = List.foldl crc8_update b l → a = b := by
  intro l
  induction l with
  | nil => intro _ a b _ _ h; exact h
  | cons x l ih =>
    intro hbytes a b ha hb h
    have hx : x < 256 := hbytes x (List.mem_cons_self x l)
    have hrest : ∀ y ∈ l, y < 256 := fun y hy => hbytes y (List.mem_cons_of_mem x hy)
    simp only [List.foldl_cons] at h
    exact crc8_update_inj ha hb hx
      (ih hrest (crc8_update_lt ha hx) (crc8_update_lt hb hx) h)

theorem two_pow_lt_256 {b : Nat} (hb : b < 8) : 2 ^ b < 256 := by
  calc 2 ^ b ≤ 2 ^ 7 := Nat.pow_le_pow_right (by norm_num) (by omega)
  _ < 256 := by norm_num

/-- Flipping bit `b` of byte `i` changes the running CRC, whatever the initial
state: the per-byte update is injective. -/
theorem crc8_foldl_flip_ne : ∀ (data : List Nat), (∀ x ∈ data, x < 256) →
    ∀ (c : Nat), c < 256 → ∀ (i : Nat) (hi : i < data.length) (b : Nat), b < 8 →
    List.foldl crc8_update c (data.set i (data.get ⟨i, hi⟩ ^^^ 2 ^ b)) ≠
      List.foldl crc8_update c data := by
  intro data
  induction data with
  | nil => intro _ _ _ i hi; exact absurd hi (by simp)
  | cons d rest ih =>
    intro hbytes c hc i hi b hb h
    have hd : d < 256 := hbytes d (List.mem_cons_self d rest)
    have hrest : ∀ y ∈ rest, y < 256 := fun y hy => hbytes y (List.mem_cons_of_mem d hy)
    have hp : (2 : Nat) ^ b < 256 := two_pow_lt_256 hb
    cases i with
    | zero =>
      simp only [List.set_cons_zero, List.get, List.foldl_cons] at h
      have h1 : crc8_update c (d ^^^ 2 ^ b) = crc8_update c d :=
        crc8_foldl_inj rest hrest
          (crc8_update_lt hc (xor_byte_lt hd hp))
          (crc8_update_lt hc hd) h
      have h2 : c ^^^ (d ^^^ 2 ^ b) = c ^^^ d :=
        crc8_bits_inj 8 (xor_byte_lt hc (xor_byte_lt hd hp)) (xor_byte_lt hc hd) h1
      have h3 : d ^^^ 2 ^ b = d := xor_cancel_left h2
      have h4 : (0 : Nat) = 2 ^ b := by
        have h5 := congrArg (fun z => d ^^^ z) h3.symm
        simpa [← Nat.xor_assoc] using h5
      exact (pow_pos (by norm_num : (0 : Nat) < 2) b).ne' h4.symm
    | succ i =>
      simp only [List.set_cons_succ, List.get, List.foldl_cons] at h
      have hi1 : i < rest.length := by simpa using hi
      exact ih hrest (crc8_update c d) (crc8_update_lt hc hd) i hi1 b hb h


/-! The binary protocol codec of `src/communication/protocol.c`. -/

/-- `pack_uint32_be`: big-endian bytes of a `uint32_t`. -/
def pack_uint32_be (value : Nat) : List Nat :=
  [(value >>> 24) &&& 0xFF, (value >>> 16) &&& 0xFF,
   (value >>> 8) &&& 0xFF, value &&& 0xFF]

/-- `pack_uint16_be`: big-endian bytes of a `uint16_t`. -/
def pack_uint16_be (value : Nat) : List Nat :=
  [(value >>> 8) &&& 0xFF, value &&& 0xFF]

/-- `float_to_fixed16`: the C cast `(uint16_t)(value * 100.0f)` truncates
toward zero; on the nonnegative in-range values the claims quantify over this
is the floor of `value * 100`. -/
def float_to_fixed16 (value : ℚ) : Nat := (⌊value * 100⌋).toNat

/-- The flags byte set by the encoders: bit 1 = alarm_active, bit 2 =
door_open. -/
def telemetryFlags (t : Telemetry) : Nat :=
  (if t.alarm_active then 1 <<< 1 else 0) ||| (if t.door_open then 1 <<< 2 else 0)

/-- The event-name bytes copied by `protocol_encode_event`:
`strnlen(event, 16)` bytes of the `char[16]` field. -/
def eventNameBytes (t : Telemetry) : List Nat :=
  (t.event.toList.map Char.toNat).take 16

/-- `protocol_encode_telemetry` (non-null arguments): the emitted byte
sequence `START TYPE LEN payload CRC END` with the 11-byte telemetry
payload. -/
def protocol_encode_telemetry (t : Telemetry) : List Nat :=
  let body : List Nat :=
    MSG_TYPE_TELEMETRY :: 11 ::
      (pack_uint32_be t.timestamp ++
       pack_uint16_be (float_to_fixed16 t.co_ppm) ++
       [telemetryFlags t, t.state, 0x00, 0x00, 0x00])
  (PROTOCOL_START_MARKER :: body) ++
    [crc8_calculate body, PROTOCOL_END_MARKER]

/-- `protocol_encode_event` (non-null arguments): the emitted byte sequence
with the variable-length event payload. -/
def protocol_encode_event (t : Telemetry) : List Nat :=
  let name := eventNameBytes t
  let body : List Nat :=
    MSG_TYPE_EVENT :: (4 + 2 + 1 + name.length + 1 + 1 + 2) ::
      (pack_uint32_be t.timestamp ++
       pack_uint16_be (float_to_fixed16 t.co_ppm) ++
       [name.length] ++ name ++
       [telemetryFlags t, t.state, 0x00, 0x00])
  (PROTOCOL_START_MARKER :: body) ++
    [crc8_calculate body, PROTOCOL_END_MARKER]

/-- `protocol_verify_packet` (non-null packet): minimum length, START marker,
END marker, then the CRC recomputed over `packet[1 .. packet_len - 3]`. -/
def protocol_verify_packet (packet : List Nat) : Bool :=
  if packet.length < 6 then false
  else if packet.getD 0 0 ≠ PROTOCOL_START_MARKER then false
  else if packet.getD (packet.length - 1) 0 ≠ PROTOCOL_END_MARKER then false
  else if packet.getD (packet.length - 2) 0 ≠
      crc8_calculate ((packet.drop 1).take (packet.length - 3)) then false
  else true

/-- Modelled from the spec: no telemetry decoder exists in the source (the
spec calls `decode` "conceptually definable"); this reads the section 4.3
telemetry payload layout back from the packet bytes. -/
def decode_telemetry (p : List Nat) : Nat × ℚ × Bool × Bool × Nat :=
  let ts : Nat := p.getD 3 0 * 2 ^ 24 + p.getD 4 0 * 2 ^ 16 +
    p.getD 5 0 * 2 ^ 8 + p.getD 6 0
  let fixed : Nat := p.getD 7 0 * 2 ^ 8 + p.getD 8 0
  let flags : Nat := p.getD 9 0
  (ts, (fixed : ℚ) / 100, flags.testBit 1, flags.testBit 2, p.getD 10 0)

theorem protocol_verify_packet_iff (p : List Nat) :
    protocol_verify_packet p = true ↔
      (6 ≤ p.length ∧ p.getD 0 0 = PROTOCOL_START_MARKER ∧
       p.getD (p.length - 1) 0 = PROTOCOL_END_MARKER ∧
       p.getD (p.length - 2) 0 =
         crc8_calculate ((p.drop 1).take (p.length - 3))) := by
  unfold protocol_verify_packet
  split_ifs with h1 h2 h3 h4 <;> simp_all


theorem and255_eq_mod (x : Nat) : x &&& 255 = x % 256 := by
  have h := Nat.and_pow_two_sub_one_eq_mod x 8
  norm_num at h
  exact h

theorem unpack32 {v : Nat} (hv : v < 2 ^ 32) :
    ((v >>> 24) &&& 0xFF) * 2 ^ 24 + ((v >>> 16) &&& 0xFF) * 2 ^ 16 +
      ((v >>> 8) &&& 0xFF) * 2 ^ 8 + (v &&& 0xFF) = v := by
  simp only [and255_eq_mod, Nat.shiftRight_eq_div_pow]
  norm_num
  omega

theorem unpack16 {v : Nat} (hv : v < 2 ^ 16) :
    ((v >>> 8) &&& 0xFF) * 2 ^ 8 + (v &&& 0xFF) = v := by
  simp only [and255_eq_mod, Nat.shiftRight_eq_div_pow]
  norm_num
  omega

theorem telemetryFlags_testBit (t : Telemetry) :
    (telemetryFlags t).testBit 1 = t.alarm_active ∧
    (telemetryFlags t).testBit 2 = t.door_open := by
  unfold telemetryFlags
  cases t.alarm_active <;> cases t.door_open <;> exact ⟨by decide, by decide⟩

theorem encode_telemetry_bytes (t : Telemetry) :
    protocol_encode_telemetry t =
      [PROTOCOL_START_MARKER, MSG_TYPE_TELEMETRY, 11,
       (t.timestamp >>> 24) &&& 0xFF, (t.timestamp >>> 16) &&& 0xFF,
       (t.timestamp >>> 8) &&& 0xFF, t.timestamp &&& 0xFF,
       (float_to_fixed16 t.co_ppm >>> 8) &&& 0xFF,
       float_to_fixed16 t.co_ppm &&& 0xFF,
       telemetryFlags t, t.state, 0x00, 0x00, 0x00,
       crc8_calculate (MSG_TYPE_TELEMETRY :: 11 ::
         (pack_uint32_be t.timestamp ++
          pack_uint16_be (float_to_fixed16 t.co_ppm) ++
          [telemetryFlags t, t.state, 0x00, 0x00, 0x00])),
       PROTOCOL_END_MARKER] := by
  simp [protocol_encode_telemetry, pack_uint32_be, pack_uint16_be]

/-- C3: for every valid telemetry record (timestamp a `uint32`, state a byte,
CO value nonnegative and within the 16-bit fixed-point range), decoding the
section 4.3 telemetry layout from `protocol_encode_telemetry` recovers
timestamp, alarm flag, door flag and state exactly, and the CO value to
within 0.01 ppm. -/
theorem protocol_telemetry_roundtrip (t : Telemetry)
    (hts : t.timestamp < 2 ^ 32) (hst : t.state < 256)
    (hco0 : 0 ≤ t.co_ppm) (hco1 : t.co_ppm * 100 < 65536) :
    (decode_telemetry (protocol_encode_telemetry t)).1 = t.timestamp ∧
    (decode_telemetry (protocol_encode_telemetry t)).2.2.1 = t.alarm_active ∧
    (decode_telemetry (protocol_encode_telemetry t)).2.2.2.1 = t.door_open ∧
    (decode_telemetry (protocol_encode_telemetry t)).2.2.2.2 = t.state ∧
    |t.co_ppm - (decode_telemetry (protocol_encode_telemetry t)).2.1| ≤ 1 / 100 := by
  rw [encode_telemetry_bytes]
  unfold decode_telemetry
  simp only [List.getD_cons_succ, List.getD_cons_zero]
  have hfloor0 : (0 : ℤ) ≤ ⌊t.co_ppm * 100⌋ := by
    apply Int.floor_nonneg.mpr
    positivity
  have hfixed : float_to_fixed16 t.co_ppm < 2 ^ 16 := by
    have hlt : ⌊t.co_ppm * 100⌋ < 65536 := by
      apply Int.floor_lt.mpr
      exact_mod_cast hco1
    unfold float_to_fixed16
    omega
  refine ⟨unpack32 hts, (telemetryFlags_testBit t).1,
    (telemetryFlags_testBit t).2, trivial, ?_⟩
  rw [unpack16 hfixed]
  have hcast : ((float_to_fixed16 t.co_ppm : Nat) : ℚ) =
      ((⌊t.co_ppm * 100⌋ : ℤ) : ℚ) := by
    unfold float_to_fixed16
    exact_mod_cast Int.toNat_of_nonneg hfloor0
  rw [hcast]
  have h1 : ((⌊t.co_ppm * 100⌋ : ℤ) : ℚ) ≤ t.co_ppm * 100 := Int.floor_le _
  have h2 : t.co_ppm * 100 < ((⌊t.co_ppm * 100⌋ : ℤ) : ℚ) + 1 :=
    Int.lt_floor_add_one _
  rw [abs_le]
  constructor <;> linarith

/-- A concrete valid telemetry record for the round-trip witness. -/
def roundtripSample : Telemetry :=
  { timestamp := 123456, co_ppm := 181 / 4, alarm_active := true,
    door_open := false, state := 2, event := "EMERGENCY_ON" }

/-- C3 witness: the round-trip theorem applied to a concrete record. -/
theorem protocol_telemetry_roundtrip_witness :
    (decode_telemetry (protocol_encode_telemetry roundtripSample)).1 =
      roundtripSample.timestamp ∧
    (decode_telemetry (protocol_encode_telemetry roundtripSample)).2.2.1 =
      roundtripSample.alarm_active ∧
    (decode_telemetry (protocol_encode_telemetry roundtripSample)).2.2.2.1 =
      roundtripSample.door_open ∧
    (decode_telemetry (protocol_encode_telemetry roundtripSample)).2.2.2.2 =
      roundtripSample.state ∧
    |roundtripSample.co_ppm -
      (decode_telemetry (protocol_encode_telemetry roundtripSample)).2.1| ≤ 1 / 100 :=
  protocol_telemetry_roundtrip roundtripSample (by norm_num [roundtripSample])
    (by norm_num [roundtripSample]) (by norm_num [roundtripSample])
    (by norm_num [roundtripSample])


theorem encode_event_co_bytes (t : Telemetry) :
    (protocol_encode_event t).getD 7 0 =
      (float_to_fixed16 t.co_ppm >>> 8) &&& 0xFF ∧
    (protocol_encode_event t).getD 8 0 = float_to_fixed16 t.co_ppm &&& 0xFF := by
  simp [protocol_encode_event, pack_uint32_be, pack_uint16_be]

/-- C6 (amended): the `co_fixed16` field of both the telemetry and event
packets holds the CO value quantized by truncation toward zero,
`⌊value * 100⌋`, not by rounding. -/
theorem co_fixed16_truncation (t : Telemetry)
    (h0 : 0 ≤ t.co_ppm) (h1 : t.co_ppm * 100 < 65536) :
    (protocol_encode_telemetry t).getD 7 0 * 2 ^ 8 +
      (protocol_encode_telemetry t).getD 8 0 = (⌊t.co_ppm * 100⌋).toNat ∧
    (protocol_encode_event t).getD 7 0 * 2 ^ 8 +
      (protocol_encode_event t).getD 8 0 = (⌊t.co_ppm * 100⌋).toNat := by
  have hfixed : float_to_fixed16 t.co_ppm < 2 ^ 16 := by
    have hlt : ⌊t.co_ppm * 100⌋ < 65536 := by
      apply Int.floor_lt.mpr
      exact_mod_cast h1
    unfold float_to_fixed16
    omega
  constructor
  · rw [encode_telemetry_bytes]
    simp only [List.getD_cons_succ, List.getD_cons_zero]
    rw [unpack16 hfixed]
    rfl
  · rw [(encode_event_co_bytes t).1, (encode_event_co_bytes t).2]
    rw [unpack16 hfixed]
    rfl

/-- A CO value whose hundredths fraction exceeds one half: 1/128 ppm is
exactly representable as a `float` and `(1/128) * 100 = 0.78125` is exact in
`float` arithmetic, so the C computation truncates it to 0 while rounding
would give 1. -/
def quantSample : Telemetry :=
  { timestamp := 0, co_ppm := 1 / 128, alarm_active := false,
    door_open := false, state := 0, event := "READING" }

/-- C6 counterexample: at CO value 1/128 ppm the encoded field is 0, but
`round(value * 100) = round(0.78125) = 1`. -/
theorem co_fixed16_not_round :
    ¬ ((protocol_encode_telemetry quantSample).getD 7 0 * 2 ^ 8 +
        (protocol_encode_telemetry quantSample).getD 8 0 =
        (round (quantSample.co_ppm * 100)).toNat) := by
  intro h
  rw [encode_telemetry_bytes quantSample] at h
  simp only [List.getD_cons_succ, List.getD_cons_zero] at h
  have hco : quantSample.co_ppm = (1 : ℚ) / 128 := rfl
  rw [hco] at h
  have hf : float_to_fixed16 ((1 : ℚ) / 128) = 0 := by
    unfold float_to_fixed16
    norm_num
  have hr : round ((1 : ℚ) / 128 * 100) = 1 := by
    rw [round_eq]
    norm_num
  rw [hf, hr] at h
  norm_num at h

/-- A concrete record for the truncation witness. -/
def truncSample : Telemetry :=
  { timestamp := 7, co_ppm := 45 / 2, alarm_active := false,
    door_open := true, state := 1, event := "STATE_OPEN" }

/-- C6 witness: the truncation theorem applied to a concrete record
(22.5 ppm encodes as 2250). -/
theorem co_fixed16_truncation_witness :
    0 ≤ truncSample.co_ppm ∧ truncSample.co_ppm * 100 < 65536 ∧
    ((protocol_encode_telemetry truncSample).getD 7 0 * 2 ^ 8 +
      (protocol_encode_telemetry truncSample).getD 8 0 =
        (⌊truncSample.co_ppm * 100⌋).toNat ∧
     (protocol_encode_event truncSample).getD 7 0 * 2 ^ 8 +
      (protocol_encode_event truncSample).getD 8 0 =
        (⌊truncSample.co_ppm * 100⌋).toNat) :=
  ⟨by norm_num [truncSample], by norm_num [truncSample],
    co_fixed16_truncation truncSample (by norm_num [truncSample])
      (by norm_num [truncSample])⟩


theorem covered_region_set (p : List Nat) (i v : Nat) (h6 : 6 ≤ p.length)
    (hi3 : 3 ≤ i) (hiP : i ≤ p.length - 3) :
    ((p.set i v).drop 1).take (p.length - 3) =
      ((p.drop 1).take (p.length - 3)).set (i - 1) v := by
  apply List.ext_getElem
  · simp only [List.length_take, List.length_drop, List.length_set]
  · intro j hj1 hj2
    simp only [List.length_take, List.length_drop, List.length_set] at hj1 hj2
    rw [List.getElem_take, List.getElem_drop, List.getElem_set,
      List.getElem_set, List.getElem_take, List.getElem_drop]
    by_cases hji : i = 1 + j
    · rw [if_pos hji, if_pos (by omega)]
    · rw [if_neg hji, if_neg (by omega)]

theorem crc8_calculate_foldl (l : List Nat) :
    crc8_calculate l = l.foldl crc8_update 0 := rfl

/-- C7: for every packet accepted by `protocol_verify_packet`, flipping any
single bit of any payload byte (indices 3 through packet_len - 3, leaving
length, START, END and the stored CRC byte unchanged) yields a packet the
verifier rejects: the recomputed CRC8 over TYPE, LEN and PAYLOAD changes
under any single-bit error. -/
theorem protocol_verify_rejects_payload_bit_flip
    (p : List Nat) (hbytes : ∀ x ∈ p, x < 256)
    (hacc : protocol_verify_packet p = true)
    (i : Nat) (hi3 : 3 ≤ i) (hiP : i ≤ p.length - 3)
    (b : Nat) (hb : b < 8) :
    protocol_verify_packet (p.set i (p.getD i 0 ^^^ 2 ^ b)) = false := by
  obtain ⟨h6, hstart, hend, hcrc⟩ := (protocol_verify_packet_iff p).mp hacc
  have hip : i < p.length := by omega
  cases hres : protocol_verify_packet (p.set i (p.getD i 0 ^^^ 2 ^ b)) with
  | false => rfl
  | true =>
    exfalso
    set v := p.getD i 0 ^^^ 2 ^ b with hv
    obtain ⟨h6x, hstartx, hendx, hcrcx⟩ := (protocol_verify_packet_iff _).mp hres
    simp only [List.length_set] at h6x hstartx hendx hcrcx
    have hb1 : p.length - 2 < (p.set i v).length := by
      simp only [List.length_set]; omega
    have hb2 : p.length - 2 < p.length := by omega
    have hne2 : i ≠ p.length - 2 := by omega
    have hstored : (p.set i v).getD (p.length - 2) 0 = p.getD (p.length - 2) 0 := by
      rw [List.getD_eq_getElem _ _ hb1, List.getD_eq_getElem _ _ hb2]
      exact List.getElem_set_ne hne2 hb1
    have hcov := covered_region_set p i v h6 hi3 hiP
    rw [hcov] at hcrcx
    rw [hstored, hcrc] at hcrcx
    have hcovlen : ((p.drop 1).take (p.length - 3)).length = p.length - 3 := by
      simp only [List.length_take, List.length_drop]
      omega
    have hidx : i - 1 < ((p.drop 1).take (p.length - 3)).length := by omega
    have hval : ((p.drop 1).take (p.length - 3)).get ⟨i - 1, hidx⟩ = p.getD i 0 := by
      rw [List.get_eq_getElem]
      simp only [Fin.val_mk]
      rw [List.getElem_take, List.getElem_drop, List.getD_eq_getElem _ _ hip]
      congr 1
      omega
    have hcovbytes : ∀ x ∈ (p.drop 1).take (p.length - 3), x < 256 := by
      intro x hx
      exact hbytes x (List.drop_subset 1 p (List.take_subset _ _ hx))
    have hflip := crc8_foldl_flip_ne ((p.drop 1).take (p.length - 3)) hcovbytes
      0 (by norm_num) (i - 1) hidx b hb
    rw [hval] at hflip
    rw [crc8_calculate_foldl, crc8_calculate_foldl] at hcrcx
    exact hflip hcrcx.symm

/-- A minimal well-formed packet (one payload byte) for the bit-flip
witness. -/
def flipSamplePacket : List Nat :=
  [0xAA, 0x01, 0x01, 0x42, crc8_calculate [0x01, 0x01, 0x42], 0x55]

set_option maxRecDepth 8000 in
/-- C7 witness: the bit-flip theorem applied to a concrete accepted packet,
flipping bit 0 of the payload byte at index 3. -/
theorem protocol_verify_rejects_payload_bit_flip_witness :
    (∀ x ∈ flipSamplePacket, x < 256) ∧
    protocol_verify_packet flipSamplePacket = true ∧
    protocol_verify_packet
      (flipSamplePacket.set 3 (flipSamplePacket.getD 3 0 ^^^ 2 ^ 0)) = false :=
  ⟨by decide, by decide,
   protocol_verify_rejects_payload_bit_flip flipSamplePacket (by decide)
     (by decide) 3 (by decide) (by decide) 0 (by decide)⟩


set_option maxRecDepth 8000 in
/-- C10: `protocol_verify_packet` accepts exactly the byte sequences of
length at least 6 whose first byte is START (0xAA), last byte is END (0x55)
and second-to-last byte equals the CRC8 of the bytes between the first byte
and the CRC byte; the LEN field is never inspected, so a packet whose LEN
byte (99) disagrees with its actual 1-byte payload is still accepted. -/
theorem protocol_verify_packet_spec :
    (∀ p : List Nat, protocol_verify_packet p = true ↔
      (6 ≤ p.length ∧ p.getD 0 0 = PROTOCOL_START_MARKER ∧
       p.getD (p.length - 1) 0 = PROTOCOL_END_MARKER ∧
       p.getD (p.length - 2) 0 =
         crc8_calculate ((p.drop 1).take (p.length - 3)))) ∧
    protocol_verify_packet
      [0xAA, 0x01, 99, 0x11, crc8_calculate [0x01, 99, 0x11], 0x55] = true :=
  ⟨protocol_verify_packet_iff, by decide⟩

set_option maxRecDepth 8000 in
/-- C10 witness: the acceptance characterization applied to a concrete
packet whose LEN byte (77) is likewise inconsistent with its payload. -/
theorem protocol_verify_packet_spec_witness :
    protocol_verify_packet
      [0xAA, 0x02, 77, 0x33, crc8_calculate [0x02, 77, 0x33], 0x55] = true :=
  (protocol_verify_packet_spec.1 _).mpr (by decide)


/-! The FSM engine of `src/fsm/fsm.c`. -/

/-- `SystemState_t`: the numeric values 0..2 are from
`include/shared_types.h`; `STATE_INIT` is used by `fsm.c` (a later revision
of the enum); its numeric value does not matter to any claim. -/
inductive SystemState where
  | STATE_INIT
  | STATE_NORMAL
  | STATE_OPEN
  | STATE_EMERGENCY
deriving Repr, DecidableEq, Inhabited

/-- The `uint8_t` value stored when a `SystemState_t` is assigned to a byte
field. -/
def SystemState.code : SystemState → Nat
  | .STATE_NORMAL => 0
  | .STATE_OPEN => 1
  | .STATE_EMERGENCY => 2
  | .STATE_INIT => 3

/-- `EventType_t`, restricted to the three events `handle_event`
dispatches on. -/
inductive EventType where
  | EVENT_BUTTON_PRESS
  | EVENT_CO_ALARM
  | EVENT_CMD_STOP_EMER
deriving Repr, DecidableEq

/-- `FSMEvent_t`. -/
structure FSMEvent where
  type : EventType
  co_ppm : ℚ
deriving Repr, DecidableEq

/-- The next-state map of `handle_event`'s nested switch. -/
def next_state (prev : SystemState) (e : EventType) : SystemState :=
  match prev, e with
  | .STATE_INIT, .EVENT_BUTTON_PRESS => .STATE_INIT
  | .STATE_INIT, .EVENT_CO_ALARM => .STATE_EMERGENCY
  | .STATE_INIT, .EVENT_CMD_STOP_EMER => .STATE_INIT
  | .STATE_NORMAL, .EVENT_BUTTON_PRESS => .STATE_OPEN
  | .STATE_NORMAL, .EVENT_CO_ALARM => .STATE_EMERGENCY
  | .STATE_NORMAL, .EVENT_CMD_STOP_EMER => .STATE_NORMAL
  | .STATE_OPEN, .EVENT_BUTTON_PRESS => .STATE_OPEN
  | .STATE_OPEN, .EVENT_CO_ALARM => .STATE_EMERGENCY
  | .STATE_OPEN, .EVENT_CMD_STOP_EMER => .STATE_OPEN
  | .STATE_EMERGENCY, .EVENT_BUTTON_PRESS => .STATE_EMERGENCY
  | .STATE_EMERGENCY, .EVENT_CO_ALARM => .STATE_EMERGENCY
  | .STATE_EMERGENCY, .EVENT_CMD_STOP_EMER => .STATE_NORMAL

/-- The FSM globals touched by `handle_event`/`apply_state_config`:
`current_state`, the `emergency_webhook_triggered` latch, and an observation
counter of `ifttt_webhook_trigger` calls. -/
structure FsmCore where
  current_state : SystemState
  emergency_webhook_triggered : Bool
  webhook_count : Nat
deriving Repr, DecidableEq

/-- `apply_state_config`, restricted to its effect on the latch and the
webhook trigger (the GPIO/door/buzzer calls and telemetry emission act on
other components): entering NORMAL resets the latch; entering EMERGENCY
fires `ifttt_webhook_trigger` once if the latch is clear and sets it. -/
def apply_state_config (state : SystemState) (st : FsmCore) : FsmCore :=
  match state with
  | .STATE_NORMAL => { st with emergency_webhook_triggered := false }
  | .STATE_EMERGENCY =>
    if ¬ st.emergency_webhook_triggered then
      { st with webhook_count := st.webhook_count + 1,
                emergency_webhook_triggered := true }
    else st
  | _ => st

/-- `handle_event`: compute the next state; on a change, store it and apply
the state configuration. -/
def handle_event (st : FsmCore) (event : FSMEvent) : FsmCore :=
  let nxt := next_state st.current_state event.type
  if nxt ≠ st.current_state then
    apply_state_config nxt { st with current_state := nxt }
  else st

/-- The local state of `fsm_task`'s loop: the shared FSM globals plus the
two tick-stamped software timers. -/
structure FsmTaskState where
  core : FsmCore
  init_start_time : Nat
  door_close_time : Nat
  init_timer_active : Bool
  door_timer_active : Bool
deriving Repr, DecidableEq

/-- State of `fsm_task` just after startup: `apply_state_config(STATE_INIT)`
on the initial globals, the init timer started at tick `now0`. -/
def fsm_task_start (now0 : Nat) : FsmTaskState :=
  { core := apply_state_config .STATE_INIT
      { current_state := .STATE_INIT, emergency_webhook_triggered := false,
        webhook_count := 0 }
    init_start_time := now0
    door_close_time := 0
    init_timer_active := true
    door_timer_active := false }

/-- One iteration of `fsm_task`'s while loop at tick `now`:  `ev = some e`
models `xQueueReceive` returning an event within the 50 ms timeout, `none`
a timeout.  `tickMs` is `portTICK_PERIOD_MS`. -/
def fsm_task_step (tickMs : Nat) (s : FsmTaskState) (ev : Option FSMEvent)
    (now : Nat) : FsmTaskState :=
  let s1 :=
    match ev with
    | some e =>
      let core := handle_event s.core e
      let t1 := { s with core := core }
      let t2 := if core.current_state = .STATE_OPEN then
          { t1 with door_close_time := now, door_timer_active := true }
        else t1
      let t3 := if core.current_state ≠ .STATE_OPEN then
          { t2 with door_timer_active := false }
        else t2
      if core.current_state ≠ .STATE_INIT then
        { t3 with init_timer_active := false }
      else t3
    | none => s
  let s2 :=
    if s1.init_timer_active ∧ s1.core.current_state = .STATE_INIT ∧
        (now - s1.init_start_time) * tickMs ≥ INIT_DURATION_MS then
      { s1 with
        core := apply_state_config .STATE_NORMAL
          { s1.core with current_state := .STATE_NORMAL }
        init_timer_active := false }
    else s1
  if s2.door_timer_active ∧ s2.core.current_state = .STATE_OPEN ∧
      (now - s2.door_close_time) * tickMs ≥ DOOR_OPEN_DURATION_MS then
    { s2 with
      core := apply_state_config .STATE_NORMAL
        { s2.core with current_state := .STATE_NORMAL }
      door_timer_active := false }
  else s2

/-- A run of loop iterations over a list of (received event, tick) pairs. -/
def fsm_task_run (tickMs : Nat) (s : FsmTaskState)
    (inputs : List (Option FSMEvent × Nat)) : FsmTaskState :=
  inputs.foldl (fun st i => fsm_task_step tickMs st i.1 i.2) s


/-- Loop states reachable while waiting out the INIT self-test with no
events: still in INIT with the init timer running from `now0`, or already
auto-transitioned to NORMAL. -/
def initPhase (now0 : Nat) (s : FsmTaskState) : Prop :=
  (s.core.current_state = .STATE_INIT ∧ s.init_timer_active = true ∧
   s.init_start_time = now0 ∧ s.door_timer_active = false) ∨
  (s.core.current_state = .STATE_NORMAL ∧ s.door_timer_active = false)

theorem fsm_step_none_initPhase (tickMs now0 now : Nat) {s : FsmTaskState}
    (h : initPhase now0 s) : initPhase now0 (fsm_task_step tickMs s none now) := by
  rcases h with ⟨hc, hi, hs, hd⟩ | ⟨hc, hd⟩ <;>
  · simp only [fsm_task_step, initPhase, apply_state_config]
    split_ifs <;> simp_all

theorem fsm_step_none_init_fires (tickMs now0 now : Nat) {s : FsmTaskState}
    (h : initPhase now0 s) (hel : (now - now0) * tickMs ≥ INIT_DURATION_MS) :
    (fsm_task_step tickMs s none now).core.current_state = .STATE_NORMAL := by
  rcases h with ⟨hc, hi, hs, hd⟩ | ⟨hc, hd⟩ <;>
  · simp only [fsm_task_step, apply_state_config]
    split_ifs <;> simp_all

theorem fsm_run_none_initPhase (tickMs now0 : Nat) (ts : List Nat)
    {s : FsmTaskState} (h : initPhase now0 s) :
    initPhase now0 (fsm_task_run tickMs s
      (ts.map fun t => ((none : Option FSMEvent), t))) := by
  induction ts generalizing s with
  | nil => exact h
  | cons t ts ih =>
    simp only [List.map_cons, fsm_task_run, List.foldl_cons]
    exact ih (fsm_step_none_initPhase tickMs now0 t h)

/-- Loop states reachable while the door is open with no further events:
still OPEN with the door timer running from `t1`, or already auto-closed
back to NORMAL. -/
def openPhase (t1 : Nat) (s : FsmTaskState) : Prop :=
  (s.core.current_state = .STATE_OPEN ∧ s.door_timer_active = true ∧
   s.door_close_time = t1 ∧ s.init_timer_active = false) ∨
  (s.core.current_state = .STATE_NORMAL ∧ s.door_timer_active = false)

theorem fsm_step_none_openPhase (tickMs t1 now : Nat) {s : FsmTaskState}
    (h : openPhase t1 s) : openPhase t1 (fsm_task_step tickMs s none now) := by
  rcases h with ⟨hc, hdo, hdt, hi⟩ | ⟨hc, hd⟩ <;>
  · simp only [fsm_task_step, openPhase, apply_state_config]
    split_ifs <;> simp_all

theorem fsm_step_none_open_fires (tickMs t1 now : Nat) {s : FsmTaskState}
    (h : openPhase t1 s) (hel : (now - t1) * tickMs ≥ DOOR_OPEN_DURATION_MS) :
    (fsm_task_step tickMs s none now).core.current_state = .STATE_NORMAL := by
  rcases h with ⟨hc, hdo, hdt, hi⟩ | ⟨hc, hd⟩ <;>
  · simp only [fsm_task_step, apply_state_config]
    split_ifs <;> simp_all

theorem fsm_run_none_openPhase (tickMs t1 : Nat) (ts : List Nat)
    {s : FsmTaskState} (h : openPhase t1 s) :
    openPhase t1 (fsm_task_run tickMs s
      (ts.map fun t => ((none : Option FSMEvent), t))) := by
  induction ts generalizing s with
  | nil => exact h
  | cons t ts ih =>
    simp only [List.map_cons, fsm_task_run, List.foldl_cons]
    exact ih (fsm_step_none_openPhase tickMs t1 t h)

/-- C2: the run loop realizes the section 4.1 transition table on the
claimed scenarios: INIT auto-transitions to NORMAL once the init duration
has elapsed with no events; NORMAL plus ButtonPress enters OPEN and starts
the door timer; OPEN with no further events auto-returns to NORMAL once the
door-open duration has elapsed; EMERGENCY ignores ButtonPress; and
CmdStopEmergency leaves EMERGENCY for NORMAL. -/
theorem fsm_transition_scenarios :
    (∀ tickMs now0 : Nat, ∀ ts : List Nat, ∀ t : Nat,
      (t - now0) * tickMs ≥ INIT_DURATION_MS →
      (fsm_task_run tickMs (fsm_task_start now0)
        ((ts ++ [t]).map fun τ => ((none : Option FSMEvent), τ))).core.current_state =
        .STATE_NORMAL) ∧
    (∀ tickMs now : Nat, ∀ s : FsmTaskState, ∀ co : ℚ,
      s.core.current_state = .STATE_NORMAL →
      (fsm_task_step tickMs s (some ⟨.EVENT_BUTTON_PRESS, co⟩) now).core.current_state =
          .STATE_OPEN ∧
      (fsm_task_step tickMs s (some ⟨.EVENT_BUTTON_PRESS, co⟩) now).door_timer_active =
          true ∧
      (fsm_task_step tickMs s (some ⟨.EVENT_BUTTON_PRESS, co⟩) now).door_close_time =
          now ∧
      (fsm_task_step tickMs s (some ⟨.EVENT_BUTTON_PRESS, co⟩) now).init_timer_active =
          false) ∧
    (∀ tickMs t1 : Nat, ∀ s : FsmTaskState, ∀ ts : List Nat, ∀ t : Nat,
      openPhase t1 s → (t - t1) * tickMs ≥ DOOR_OPEN_DURATION_MS →
      (fsm_task_run tickMs s
        ((ts ++ [t]).map fun τ => ((none : Option FSMEvent), τ))).core.current_state =
        .STATE_NORMAL) ∧
    (∀ tickMs now : Nat, ∀ s : FsmTaskState, ∀ co : ℚ,
      s.core.current_state = .STATE_EMERGENCY →
      (fsm_task_step tickMs s (some ⟨.EVENT_BUTTON_PRESS, co⟩) now).core.current_state =
        .STATE_EMERGENCY) ∧
    (∀ tickMs now : Nat, ∀ s : FsmTaskState, ∀ co : ℚ,
      s.core.current_state = .STATE_EMERGENCY →
      (fsm_task_step tickMs s (some ⟨.EVENT_CMD_STOP_EMER, co⟩) now).core.current_state =
        .STATE_NORMAL) := by
  refine ⟨?_, ?_, ?_, ?_, ?_⟩
  · intro tickMs now0 ts t hel
    have hstart : initPhase now0 (fsm_task_start now0) := by
      left
      simp [fsm_task_start, apply_state_config]
    have hrun := fsm_run_none_initPhase tickMs now0 ts hstart
    simp only [List.map_append, List.map_cons, List.map_nil, fsm_task_run,
      List.foldl_append, List.foldl_cons, List.foldl_nil] at *
    exact fsm_step_none_init_fires tickMs now0 t hrun hel
  · intro tickMs now s co hc
    have hcore : handle_event s.core ⟨.EVENT_BUTTON_PRESS, co⟩ =
        { s.core with current_state := .STATE_OPEN } := by
      unfold handle_event next_state
      rw [hc]
      simp [apply_state_config]
    refine ⟨?_, ?_, ?_, ?_⟩ <;>
      simp [fsm_task_step, hcore, DOOR_OPEN_DURATION_MS, INIT_DURATION_MS]
  · intro tickMs t1 s ts t hopen hel
    have hrun := fsm_run_none_openPhase tickMs t1 ts hopen
    simp only [List.map_append, List.map_cons, List.map_nil, fsm_task_run,
      List.foldl_append, List.foldl_cons, List.foldl_nil] at *
    exact fsm_step_none_open_fires tickMs t1 t hrun hel
  · intro tickMs now s co hc
    have hcore : handle_event s.core ⟨.EVENT_BUTTON_PRESS, co⟩ = s.core := by
      unfold handle_event next_state
      rw [hc]
      simp
    simp [fsm_task_step, hcore, hc, DOOR_OPEN_DURATION_MS, INIT_DURATION_MS]
  · intro tickMs now s co hc
    have hcore : handle_event s.core ⟨.EVENT_CMD_STOP_EMER, co⟩ =
        { s.core with current_state := .STATE_NORMAL,
                      emergency_webhook_triggered := false } := by
      unfold handle_event next_state
      rw [hc]
      simp [apply_state_config]
    simp [fsm_task_step, hcore, hc, DOOR_OPEN_DURATION_MS, INIT_DURATION_MS]


/-- A loop state resting in NORMAL, for the scenario witness. -/
def normalTaskState : FsmTaskState :=
  { core := { current_state := .STATE_NORMAL
              emergency_webhook_triggered := false
              webhook_count := 0 }
    init_start_time := 0
    door_close_time := 0
    init_timer_active := false
    door_timer_active := false }

/-- A loop state holding the door open with the door timer running from
tick 10, for the scenario witness. -/
def openTaskState : FsmTaskState :=
  { core := { current_state := .STATE_OPEN
              emergency_webhook_triggered := false
              webhook_count := 0 }
    init_start_time := 0
    door_close_time := 10
    init_timer_active := false
    door_timer_active := true }

/-- A loop state in EMERGENCY with the notification latch set, for the
scenario witness. -/
def emergencyTaskState : FsmTaskState :=
  { core := { current_state := .STATE_EMERGENCY
              emergency_webhook_triggered := true
              webhook_count := 1 }
    init_start_time := 0
    door_close_time := 0
    init_timer_active := false
    door_timer_active := false }

/-- C2 witness: the scenario theorem applied at tick period 1 ms with
concrete loop states and times. -/
theorem fsm_transition_scenarios_witness :
    (fsm_task_run 1 (fsm_task_start 0)
      (([] ++ [3000]).map fun τ => ((none : Option FSMEvent), τ))).core.current_state =
        .STATE_NORMAL ∧
    (fsm_task_step 1 normalTaskState (some ⟨.EVENT_BUTTON_PRESS, 0⟩) 10).core.current_state =
        .STATE_OPEN ∧
    (fsm_task_run 1 openTaskState
      (([] ++ [6000]).map fun τ => ((none : Option FSMEvent), τ))).core.current_state =
        .STATE_NORMAL ∧
    (fsm_task_step 1 emergencyTaskState (some ⟨.EVENT_BUTTON_PRESS, 0⟩) 20).core.current_state =
        .STATE_EMERGENCY ∧
    (fsm_task_step 1 emergencyTaskState (some ⟨.EVENT_CMD_STOP_EMER, 0⟩) 30).core.current_state =
        .STATE_NORMAL :=
  ⟨fsm_transition_scenarios.1 1 0 [] 3000 (by norm_num [INIT_DURATION_MS]),
   (fsm_transition_scenarios.2.1 1 10 normalTaskState 0 rfl).1,
   fsm_transition_scenarios.2.2.1 1 10 openTaskState [] 6000
     (Or.inl ⟨rfl, rfl, rfl, rfl⟩) (by norm_num [DOOR_OPEN_DURATION_MS]),
   fsm_transition_scenarios.2.2.2.1 1 20 emergencyTaskState 0 rfl,
   fsm_transition_scenarios.2.2.2.2 1 30 emergencyTaskState 0 rfl⟩

/-- The number of transitions into EMERGENCY along an event trace. -/
def emergencyEntries : SystemState → List FSMEvent → Nat
  | _, [] => 0
  | s, e :: es =>
    (if next_state s e.type = .STATE_EMERGENCY ∧ s ≠ .STATE_EMERGENCY then 1 else 0) +
      emergencyEntries (next_state s e.type) es

theorem handle_event_state (st : FsmCore) (e : FSMEvent) :
    (handle_event st e).current_state = next_state st.current_state e.type := by
  by_cases h : next_state st.current_state e.type = st.current_state
  · simp [handle_event, h]
  · have hif : handle_event st e =
        apply_state_config (next_state st.current_state e.type)
          { st with current_state := next_state st.current_state e.type } := by
      simp [handle_event, h]
    rw [hif]
    rcases hn : next_state st.current_state e.type <;>
      simp only [apply_state_config] <;>
      first
      | rfl
      | (split_ifs <;> rfl)

theorem handle_event_webhook_step (st : FsmCore) (e : FSMEvent)
    (hinv : st.emergency_webhook_triggered = true ↔
      st.current_state = .STATE_EMERGENCY) :
    (handle_event st e).webhook_count = st.webhook_count +
      (if next_state st.current_state e.type = .STATE_EMERGENCY ∧
          st.current_state ≠ .STATE_EMERGENCY then 1 else 0) ∧
    ((handle_event st e).emergency_webhook_triggered = true ↔
      (handle_event st e).current_state = .STATE_EMERGENCY) := by
  obtain ⟨cs, latch, cnt⟩ := st
  simp only at hinv
  rcases cs <;> rcases e with ⟨ty, co⟩ <;> rcases ty <;>
    simp_all [handle_event, next_state, apply_state_config]


/-- C4: with the latch invariant (the latch is set exactly while in
EMERGENCY), a trace of events fires the external webhook exactly once per
entry into EMERGENCY; the latch only ever clears on a transition to NORMAL;
a CoAlarm from NORMAL with the latch clear fires exactly one trigger and
sets the latch; any event received while remaining in EMERGENCY fires no
further trigger; and CmdStopEmergency returns to NORMAL, clears the latch
and fires nothing, so the next emergency entry fires exactly once again. -/
theorem webhook_fires_once_per_emergency_session :
    (∀ (st : FsmCore) (es : List FSMEvent),
      (st.emergency_webhook_triggered = true ↔
        st.current_state = .STATE_EMERGENCY) →
      (es.foldl handle_event st).webhook_count =
        st.webhook_count + emergencyEntries st.current_state es ∧
      ((es.foldl handle_event st).emergency_webhook_triggered = true ↔
        (es.foldl handle_event st).current_state = .STATE_EMERGENCY)) ∧
    (∀ (u : FsmCore) (e : FSMEvent),
      u.emergency_webhook_triggered = true →
      (handle_event u e).emergency_webhook_triggered = false →
      (handle_event u e).current_state = .STATE_NORMAL) ∧
    (∀ (u : FsmCore) (co : ℚ),
      u.current_state = .STATE_NORMAL → u.emergency_webhook_triggered = false →
      (handle_event u ⟨.EVENT_CO_ALARM, co⟩).current_state = .STATE_EMERGENCY ∧
      (handle_event u ⟨.EVENT_CO_ALARM, co⟩).webhook_count = u.webhook_count + 1 ∧
      (handle_event u ⟨.EVENT_CO_ALARM, co⟩).emergency_webhook_triggered = true) ∧
    (∀ (u : FsmCore) (co : ℚ),
      u.current_state = .STATE_EMERGENCY →
      handle_event u ⟨.EVENT_CO_ALARM, co⟩ = u ∧
      handle_event u ⟨.EVENT_BUTTON_PRESS, co⟩ = u) ∧
    (∀ (u : FsmCore) (co : ℚ),
      u.current_state = .STATE_EMERGENCY →
      (handle_event u ⟨.EVENT_CMD_STOP_EMER, co⟩).current_state = .STATE_NORMAL ∧
      (handle_event u ⟨.EVENT_CMD_STOP_EMER, co⟩).webhook_count = u.webhook_count ∧
      (handle_event u ⟨.EVENT_CMD_STOP_EMER, co⟩).emergency_webhook_triggered =
        false) := by
  refine ⟨?_, ?_, ?_, ?_, ?_⟩
  · intro st es
    induction es generalizing st with
    | nil => intro hinv; exact ⟨by simp [emergencyEntries], hinv⟩
    | cons e es ih =>
      intro hinv
      obtain ⟨hcnt, hinv1⟩ := handle_event_webhook_step st e hinv
      obtain ⟨ih1, ih2⟩ := ih (handle_event st e) hinv1
      simp only [List.foldl_cons]
      refine ⟨?_, ih2⟩
      rw [ih1, hcnt, handle_event_state, emergencyEntries]
      omega
  · intro u e hl hl2
    obtain ⟨cs, latch, cnt⟩ := u
    simp only at hl
    subst hl
    rcases cs <;> rcases e with ⟨ty, co⟩ <;> rcases ty <;>
      simp_all [handle_event, next_state, apply_state_config]
  · intro u co hc hl
    obtain ⟨cs, latch, cnt⟩ := u
    simp only at hc hl
    subst hc
    subst hl
    simp [handle_event, next_state, apply_state_config]
  · intro u co hc
    obtain ⟨cs, latch, cnt⟩ := u
    simp only at hc
    subst hc
    constructor <;> simp [handle_event, next_state]
  · intro u co hc
    obtain ⟨cs, latch, cnt⟩ := u
    simp only at hc
    subst hc
    simp [handle_event, next_state, apply_state_config]

/-- The initial FSM globals: NORMAL, latch clear, no triggers yet. -/
def fsmCoreNormal : FsmCore :=
  { current_state := .STATE_NORMAL
    emergency_webhook_triggered := false
    webhook_count := 0 }

/-- Two emergency sessions separated by a CmdStopEmergency: the second
CoAlarm inside the first session fires nothing; the trace fires exactly
twice in total. -/
def sessionEvents : List FSMEvent :=
  [⟨.EVENT_CO_ALARM, 50⟩, ⟨.EVENT_CO_ALARM, 60⟩, ⟨.EVENT_BUTTON_PRESS, 0⟩,
   ⟨.EVENT_CMD_STOP_EMER, 0⟩, ⟨.EVENT_CO_ALARM, 70⟩]

/-- C4 witness: the session theorem applied to a concrete two-session
trace. -/
theorem webhook_fires_once_per_emergency_session_witness :
    (fsmCoreNormal.emergency_webhook_triggered = true ↔
      fsmCoreNormal.current_state = .STATE_EMERGENCY) ∧
    (sessionEvents.foldl handle_event fsmCoreNormal).webhook_count =
      fsmCoreNormal.webhook_count +
        emergencyEntries fsmCoreNormal.current_state sessionEvents :=
  ⟨by simp [fsmCoreNormal],
   (webhook_fires_once_per_emergency_session.1 fsmCoreNormal sessionEvents
     (by simp [fsmCoreNormal])).1⟩


/-! The cloud sync agent of `src/communication/agent_task.c`.  `publish` is
modelled as emitting the record into a trace (the MQTT transport is an
external collaborator); the trace order is the order of the
`publish_telemetry` calls. -/

/-- `flush_ring_buffer`: pop-and-publish until `ring_buffer_pop` returns
false; `count` bounds the iterations. -/
def flush_ring_buffer (rb : RingBuffer) : List Telemetry × RingBuffer :=
  ring_buffer_drain rb.count rb

/-- The loop-carried agent state: `was_connected` plus the shared ring
buffer. -/
structure AgentState where
  was_connected : Bool
  rb : RingBuffer

/-- One iteration of `agent_task`'s loop: on a disconnected-to-connected
edge flush the ring buffer first; then service at most one record from the
telemetry queue — publish when connected, push into the ring buffer when
not.  Returns the records published this iteration, in publish order. -/
def agent_step (st : AgentState) (is_connected : Bool)
    (incoming : Option Telemetry) : List Telemetry × AgentState :=
  let fl :=
    if is_connected ∧ ¬ st.was_connected then flush_ring_buffer st.rb
    else ([], st.rb)
  match incoming with
  | some d =>
    if is_connected then
      (fl.1 ++ [d], { was_connected := is_connected, rb := fl.2 })
    else
      (fl.1, { was_connected := is_connected, rb := ring_buffer_push fl.2 d })
  | none => (fl.1, { was_connected := is_connected, rb := fl.2 })

/-- A run of agent iterations over (link status, received record) pairs,
concatenating the publish traces. -/
def agent_run (st : AgentState) :
    List (Bool × Option Telemetry) → List Telemetry × AgentState
  | [] => ([], st)
  | (c, inc) :: rest =>
    let r1 := agent_step st c inc
    let r2 := agent_run r1.2 rest
    (r1.1 ++ r2.1, r2.2)

theorem agent_run_offline (xs : List Telemetry) (rb : RingBuffer) :
    agent_run ⟨false, rb⟩ (xs.map fun x => (false, some x)) =
      ([], ⟨false, pushAll rb xs⟩) := by
  induction xs generalizing rb with
  | nil => simp [agent_run, pushAll]
  | cons x xs ih =>
    simp only [List.map_cons, agent_run, agent_step]
    simp only [Bool.false_eq_true, and_false, false_and, if_false, ite_false]
    simp [ih, pushAll]

theorem agent_step_reconnect {rb : RingBuffer} {l : List Telemetry}
    (hr : rb.realizes l) (inc : Option Telemetry) :
    (agent_step ⟨false, rb⟩ true inc).1 = l ++ inc.toList := by
  have hcount : rb.count = l.length := hr.1
  have hd := drain_realizes hr
  cases inc <;> simp [agent_step, flush_ring_buffer, hcount, hd.1]

/-- C5: if the agent starts disconnected with an empty ring buffer, receives
k ≤ capacity records while the link is down (buffering all of them), and the
link then comes up, the reconnect iteration publishes all k buffered records
oldest-first before any newly-arriving record of that iteration. -/
theorem agent_flush_before_new_records (xs : List Telemetry)
    (hlen : xs.length ≤ RING_BUFFER_SIZE) (incoming : Option Telemetry) :
    (agent_run ⟨false, ring_buffer_init⟩ (xs.map fun x => (false, some x))).1 = [] ∧
    (agent_step (agent_run ⟨false, ring_buffer_init⟩
        (xs.map fun x => (false, some x))).2 true incoming).1 =
      xs ++ incoming.toList := by
  rw [agent_run_offline]
  refine ⟨rfl, ?_⟩
  have hr := pushAll_init_realizes xs
  have hzero : xs.length - RING_BUFFER_SIZE = 0 := by omega
  rw [hzero, List.drop_zero] at hr
  exact agent_step_reconnect hr incoming

/-- C5 witness: five records buffered while offline are all published,
oldest first, ahead of the newly-arriving record on reconnect. -/
theorem agent_flush_before_new_records_witness :
    (sampleRecords 5).length ≤ RING_BUFFER_SIZE ∧
    (agent_run ⟨false, ring_buffer_init⟩
      ((sampleRecords 5).map fun x => (false, some x))).1 = [] ∧
    (agent_step (agent_run ⟨false, ring_buffer_init⟩
        ((sampleRecords 5).map fun x => (false, some x))).2 true
        (some (sampleRecord 100))).1 =
      sampleRecords 5 ++ (some (sampleRecord 100)).toList :=
  ⟨by simp [sampleRecords, RING_BUFFER_SIZE],
   (agent_flush_before_new_records (sampleRecords 5)
     (by simp [sampleRecords, RING_BUFFER_SIZE]) (some (sampleRecord 100))).1,
   (agent_flush_before_new_records (sampleRecords 5)
     (by simp [sampleRecords, RING_BUFFER_SIZE]) (some (sampleRecord 100))).2⟩


/-! The sensor polling loop of `src/sensor_task/sensor.c`. -/

/-- `adc_to_co_ppm`: linear calibration of the 12-bit raw reading to the
0..200 ppm scale. -/
def adc_to_co_ppm (adc_value : Nat) : ℚ := (adc_value : ℚ) * 200 / 4095

/-- One iteration of `sensor_task`'s loop (queues non-null): the
`TelemetryRecord` tagged READING sent to the agent's channel, and the
`CoAlarm` event sent to the FSM's channel when the reading is at or above
`CO_THRESHOLD_SENSOR_PPM`. -/
def sensor_iteration (adc_reading : Nat) (state : SystemState) (now : Nat) :
    Telemetry × Option FSMEvent :=
  let co_ppm := adc_to_co_ppm adc_reading
  ({ timestamp := now
     co_ppm := co_ppm
     alarm_active := state == .STATE_EMERGENCY
     door_open := state == .STATE_OPEN || state == .STATE_EMERGENCY
     state := state.code
     event := "READING" },
   if co_ppm ≥ CO_THRESHOLD_SENSOR_PPM then
     some { type := .EVENT_CO_ALARM, co_ppm := co_ppm }
   else none)

/-- C8: each sensor iteration calibrates the raw reading r to
r * 200 / 4095 ppm, which lies in [0, 200] for r in [0, 4095]; a READING
telemetry record carrying that value is always emitted; and a CoAlarm event
carrying the same value is emitted if and only if the reading is at or
above the 100 ppm sensor threshold. -/
theorem sensor_iteration_spec (adc : Nat) (state : SystemState) (now : Nat)
    (hadc : adc ≤ 4095) :
    adc_to_co_ppm adc = (adc : ℚ) * 200 / 4095 ∧
    0 ≤ adc_to_co_ppm adc ∧ adc_to_co_ppm adc ≤ 200 ∧
    (sensor_iteration adc state now).1.event = "READING" ∧
    (sensor_iteration adc state now).1.co_ppm = adc_to_co_ppm adc ∧
    ((sensor_iteration adc state now).2 =
        some { type := .EVENT_CO_ALARM, co_ppm := adc_to_co_ppm adc } ↔
      CO_THRESHOLD_SENSOR_PPM ≤ adc_to_co_ppm adc) ∧
    ((sensor_iteration adc state now).2 = none ↔
      adc_to_co_ppm adc < CO_THRESHOLD_SENSOR_PPM) := by
  have hle : (adc : ℚ) ≤ 4095 := by exact_mod_cast hadc
  have h0 : 0 ≤ adc_to_co_ppm adc := by
    unfold adc_to_co_ppm
    positivity
  have h200 : adc_to_co_ppm adc ≤ 200 := by
    unfold adc_to_co_ppm
    rw [div_le_iff (by norm_num)]
    linarith
  refine ⟨rfl, h0, h200, rfl, rfl, ?_, ?_⟩
  · dsimp only [sensor_iteration]
    split_ifs with h
    · simpa using h
    · simpa using h
  · dsimp only [sensor_iteration]
    split_ifs with h
    · simp only [ge_iff_le] at h
      simp
      linarith
    · simp only [ge_iff_le, not_le] at h
      simpa using h

/-- C8 witness: the sensor iteration theorem at raw reading 2048
(calibrating to about 100.02 ppm, at the alarm threshold). -/
theorem sensor_iteration_spec_witness :
    (2048 : Nat) ≤ 4095 ∧
    ((sensor_iteration 2048 .STATE_NORMAL 0).2 =
        some { type := .EVENT_CO_ALARM, co_ppm := adc_to_co_ppm 2048 } ↔
      CO_THRESHOLD_SENSOR_PPM ≤ adc_to_co_ppm 2048) ∧
    (sensor_iteration 2048 .STATE_NORMAL 0).1.event = "READING" :=
  ⟨by norm_num,
   (sensor_iteration_spec 2048 .STATE_NORMAL 0 (by norm_num)).2.2.2.2.2.1,
   (sensor_iteration_spec 2048 .STATE_NORMAL 0 (by norm_num)).2.2.2.1⟩

/-! `fsm_get_state` of `src/fsm/fsm.c`. -/

/-- `fsm_get_state`: when the state mutex has not been created yet (FSM not
initialized), return `STATE_NORMAL`; otherwise read `current_state` under
the mutex. -/
def fsm_get_state (state_mutex : Option Unit) (current_state : SystemState) :
    SystemState :=
  match state_mutex with
  | none => .STATE_NORMAL
  | some _ => current_state

/-- C9: before `fsm_init` creates the state mutex, `fsm_get_state` returns
`STATE_NORMAL` — not the actual startup state `STATE_INIT`; after
initialization it reports the stored current state. -/
theorem fsm_get_state_uninitialized :
    (∀ c : SystemState, fsm_get_state none c = .STATE_NORMAL) ∧
    SystemState.STATE_NORMAL ≠ SystemState.STATE_INIT ∧
    (∀ c : SystemState, fsm_get_state (some ()) c = c) :=
  ⟨fun _ => rfl, by decide, fun _ => rfl⟩

end COSystem
